import Mathlib

/-!
Verification of the fast_sssp repository (Duan et al. BMSSP implementation
with a Dijkstra baseline) against its natural-language specification.

The Rust sources are shallowly embedded: the generic weight type
`W : Float + Zero + Ord` (instantiated in the repository with `OrderedFloat`
values that are only ever added and compared) is modelled as `WithTop Nat`,
whose top element plays the role of the `f64::MAX` / `INFINITY` sentinel the
code uses for unset distances; `Vec`-backed maps keyed by dense vertex ids
are modelled as total functions or lists; `HashMap`s that are never iterated
are modelled as association lists; fallible code (including Rust panics)
returns `Option`/`Except`; loops whose termination is not structural take
fuel and return `none` when it runs out, so every theorem about a `some`
result is a statement about a genuinely completed run.
-/

set_option maxRecDepth 20000

namespace FastSSSP

/-- Weight domain: non-negative values plus the `MAX`/`INFINITY` sentinel. -/
abbrev W : Type := WithTop Nat

/-! ## Small list helpers shared by the embeddings -/

/-- Stable insertion of a key/value pair into a value-sorted list: the new
pair goes after all pairs with value ≤ its own, matching the behaviour of
Rust's stable `sort_by` on values. -/
def insSorted (p : Nat × W) : List (Nat × W) → List (Nat × W)
  | [] => [p]
  | q :: rest => if q.2 ≤ p.2 then q :: insSorted p rest else p :: q :: rest

/-- Stable sort of key/value pairs by value (Rust `sort_by` on `partial_cmp`
of the values, which is total on the weight type used). -/
def sortPairs (l : List (Nat × W)) : List (Nat × W) :=
  l.foldl (fun acc p => insSorted p acc) []

/-- Sorted insertion of a plain weight (Rust `Vec::sort` on values). -/
def insSortedW (w : W) : List W → List W
  | [] => [w]
  | x :: rest => if x ≤ w then x :: insSortedW w rest else w :: x :: rest

/-- Sort a list of weights (Rust `discovered_distances.sort()`). -/
def sortW (l : List W) : List W :=
  l.foldl (fun acc w => insSortedW w acc) []

/-- `l.chunks(sz)` from Rust: splits into consecutive chunks of size `sz`
(the last one possibly shorter).  Rust panics on `sz = 0`; callers guard. -/
def chunkListGo (sz : Nat) : Nat → List α → List (List α)
  | 0, _ => []
  | _, [] => []
  | fuel + 1, a :: rest => (a :: rest).take sz :: chunkListGo sz fuel ((a :: rest).drop sz)

/-- `l.chunks(sz)` for `sz > 0`: the structural fuel `l.length` always
suffices because each step consumes at least one element. -/
def chunkList (sz : Nat) (l : List α) : List (List α) :=
  if sz = 0 then [] else chunkListGo sz l.length l

/-- Insert `x` at position `i` of `l` (Rust `Vec::insert`). -/
def listInsertAt (l : List α) (i : Nat) (x : α) : List α :=
  l.take i ++ x :: l.drop i

/-! ## Association-list model of the `HashMap`s that are never iterated -/

/-- `HashMap::get`. -/
def aGet (l : List (Nat × W)) (k : Nat) : Option W :=
  (l.find? (fun p => p.1 == k)).map (·.2)

/-- `HashMap::insert` (replace if present, else add). -/
def aInsert (l : List (Nat × W)) (k : Nat) (v : W) : List (Nat × W) :=
  if (l.find? (fun p => p.1 == k)).isSome then
    l.map (fun p => if p.1 == k then (p.1, v) else p)
  else l ++ [(k, v)]

/-- `HashMap::remove`. -/
def aRemove (l : List (Nat × W)) (k : Nat) : List (Nat × W) :=
  l.filter (fun p => p.1 != k)

/-! ## BlockList (src/data_structures/block_list.rs)

The bucketed priority structure of Lemma 3.3.  The `BTreeMap<V, usize>`
`upper_bounds` is modelled as a key-sorted association list with unique
keys; `range(value..).next()` is the first entry with key ≥ value.
`BlockList::insert` computes `self.d1_blocks.len() - 1` as a fallback block
index, which panics (usize underflow / out-of-bounds) when `d1_blocks` is
empty, so `insert` returns an `Option`; `batch_prepend` can call
`chunks(block_size / 2)` with a zero chunk size, which also panics. -/

/-- A block of the block list (`struct Block`). -/
structure Blk where
  pairs : List (Nat × W)
  ub : W
deriving DecidableEq

/-- The block list itself (`struct BlockList`). -/
structure BlockList where
  blockSize : Nat
  upperBound : W
  keyValues : List (Nat × W)
  d0Blocks : List Blk
  d1Blocks : List Blk
  upperBounds : List (W × Nat)
deriving DecidableEq

/-- `BlockList::new`. -/
def BlockList.new (blockSize : Nat) (upperBound : W) : BlockList :=
  { blockSize := blockSize
    upperBound := upperBound
    keyValues := []
    d0Blocks := []
    d1Blocks := [⟨[], upperBound⟩]
    upperBounds := [] }

/-- `BlockList::is_empty`. -/
def BlockList.isEmpty (bl : BlockList) : Bool :=
  bl.keyValues.isEmpty

/-- `BTreeMap::insert` on the sorted association list. -/
def btreeInsert : List (W × Nat) → W → Nat → List (W × Nat)
  | [], k, v => [(k, v)]
  | (k0, v0) :: rest, k, v =>
    if k < k0 then (k, v) :: (k0, v0) :: rest
    else if k = k0 then (k, v) :: rest
    else (k0, v0) :: btreeInsert rest k v

/-- `BTreeMap::range(value..).next()`: index stored under the smallest key
that is ≥ `value`. -/
def btreeNextGE (m : List (W × Nat)) (value : W) : Option Nat :=
  (m.find? (fun p => value ≤ p.1)).map (·.2)

/-- `BlockList::rebuild_upper_bounds`. -/
def rebuildUB (bl : BlockList) : BlockList :=
  { bl with
    upperBounds :=
      bl.d1Blocks.enum.foldl (fun m ib => btreeInsert m ib.2.ub ib.1) [] }

/-- `BlockList::find_block_for_value`; `none` models the panic on
`d1_blocks.len() - 1` when `d1_blocks` is empty. -/
def findBlockForValue (bl : BlockList) (value : W) : Option Nat :=
  match btreeNextGE bl.upperBounds value with
  | some idx => some idx
  | none => if bl.d1Blocks.length = 0 then none else some (bl.d1Blocks.length - 1)

/-- Drop every pair with the given key from a block. -/
def stripKey (k : Nat) (b : Blk) : Blk :=
  { b with pairs := b.pairs.filter (fun p => p.1 != k) }

/-- `BlockList::remove_key_from_blocks`. -/
def removeKeyFromBlocks (bl : BlockList) (k : Nat) : BlockList :=
  let d0a := (bl.d0Blocks.map (stripKey k)).filter (fun b => !b.pairs.isEmpty)
  let d1a := bl.d1Blocks.map (stripKey k)
  let d1b :=
    if d1a.length > 1 then
      let f := d1a.filter (fun b => !b.pairs.isEmpty)
      if f.isEmpty then [(⟨[], bl.upperBound⟩ : Blk)] else f
    else d1a
  rebuildUB { bl with d0Blocks := d0a, d1Blocks := d1b }

/-- `BlockList::split_block`; `none` models the index panics. -/
def splitBlock (bl : BlockList) (idx : Nat) : Option BlockList :=
  match bl.d1Blocks.get? idx with
  | none => none
  | some b =>
    let sorted := sortPairs b.pairs
    match sorted.get? (sorted.length / 2) with
    | none => none
    | some med =>
      let midx := sorted.length / 2
      let b1 : Blk := ⟨sorted.take midx, med.2⟩
      let b2 : Blk := ⟨sorted.drop midx, b.ub⟩
      some (rebuildUB
        { bl with d1Blocks := listInsertAt ((bl.d1Blocks.set idx b1)) (idx + 1) b2 })

/-- `BlockList::insert`.  `none` models a panic. -/
def BlockList.insert (bl : BlockList) (key : Nat) (value : W) : Option BlockList :=
  let cont : BlockList → Option BlockList := fun bl1 =>
    let kv := aInsert bl1.keyValues key value
    match findBlockForValue bl1 value with
    | none => none
    | some idx =>
      match bl1.d1Blocks.get? idx with
      | none => none
      | some b =>
        let b1 : Blk := { b with pairs := b.pairs ++ [(key, value)] }
        let bl2 := { bl1 with keyValues := kv, d1Blocks := bl1.d1Blocks.set idx b1 }
        if b1.pairs.length > bl2.blockSize then splitBlock bl2 idx else some bl2
  match aGet bl.keyValues key with
  | some old => if old ≤ value then some bl else cont (removeKeyFromBlocks bl key)
  | none => cont bl

/-- Deterministic model of the `HashMap` deduplication in `batch_prepend`
(key order = first occurrence; per key the smallest value is kept). -/
def dedupMin (pairs : List (Nat × W)) : List (Nat × W) :=
  pairs.foldl (fun acc p =>
    match acc.find? (fun q => q.1 == p.1) with
    | some q =>
      if p.2 < q.2 then acc.map (fun r => if r.1 == p.1 then (r.1, p.2) else r) else acc
    | none => acc ++ [p]) []

/-- `fold(V::zero(), max)` over the values of a pair list. -/
def maxVal (l : List (Nat × W)) : W :=
  l.foldl (fun a p => if a > p.2 then a else p.2) 0

/-- `BlockList::create_multiple_blocks`; `none` models the `chunks(0)` panic
when `block_size / 2 = 0`. -/
def createMultipleBlocks (bl : BlockList) (pv : List (Nat × W)) : Option BlockList :=
  let sorted := sortPairs pv
  let target := bl.blockSize / 2
  if target = 0 then none
  else some
    { bl with
      d0Blocks :=
        ((chunkList target sorted).filter (fun c => !c.isEmpty)).map
          (fun c => (⟨c, maxVal c⟩ : Blk)) ++ bl.d0Blocks }

/-- `BlockList::batch_prepend`.  Note: in the single-block case the source
`push`es the new block at the *end* of `D0`, while the multi-block case
prepends. -/
def BlockList.batchPrepend (bl : BlockList) (pairs : List (Nat × W)) : Option BlockList :=
  if pairs.isEmpty then some bl
  else
    let uniq := dedupMin pairs
    let bl1 := uniq.foldl (fun acc kv =>
      match aGet acc.keyValues kv.1 with
      | some old =>
        if old ≤ kv.2 then acc
        else
          let acc1 := removeKeyFromBlocks acc kv.1
          { acc1 with keyValues := aInsert acc1.keyValues kv.1 kv.2 }
      | none => { acc with keyValues := aInsert acc.keyValues kv.1 kv.2 }) bl
    if uniq.length ≤ bl1.blockSize then
      if uniq.isEmpty then some bl1
      else some { bl1 with d0Blocks := bl1.d0Blocks ++ [⟨uniq, maxVal uniq⟩] }
    else createMultipleBlocks bl1 uniq

/-- The collection loop inside `BlockList::pull`: take up to `count` pairs
from the front blocks, removing exhausted blocks. -/
def collectFromBlocks : List Blk → Nat → List (Nat × W) × List Blk
  | blocks, 0 => ([], blocks)
  | [], _ => ([], [])
  | b :: rest, count =>
    if b.pairs.length ≤ count then
      let r := collectFromBlocks rest (count - b.pairs.length)
      (b.pairs ++ r.1, r.2)
    else (b.pairs.take count, ⟨b.pairs.drop count, b.ub⟩ :: rest)

/-- `BlockList::pull`: returns the pulled keys, the next bound, and the
updated structure. -/
def BlockList.pull (bl : BlockList) (maxCount : Nat) : List Nat × W × BlockList :=
  let c0 := collectFromBlocks bl.d0Blocks maxCount
  let remaining := maxCount - c0.1.length
  let c1 := if remaining > 0 then collectFromBlocks bl.d1Blocks remaining
            else (([] : List (Nat × W)), bl.d1Blocks)
  let sortedE := sortPairs (c0.1 ++ c1.1)
  let taken := sortedE.take (min sortedE.length maxCount)
  let nextBound :=
    if taken.length < sortedE.length then (sortedE.getD taken.length (0, 0)).2
    else if !c0.2.isEmpty then (c0.2.headD ⟨[], 0⟩).ub
    else if !c1.2.isEmpty then (c1.2.headD ⟨[], 0⟩).ub
    else bl.upperBound
  let kv := taken.foldl (fun m p => aRemove m p.1) bl.keyValues
  (taken.map (·.1), nextBound,
    rebuildUB { bl with keyValues := kv, d0Blocks := c0.2, d1Blocks := c1.2 })

/-! ## Directed graph (src/graph/directed.rs)

`DirectedGraph` keeps two `HashMap<usize, Vec<(usize, W)>>` adjacency maps
keyed by dense vertex ids `0..n`; every construction path inserts an empty
vector when a vertex is added, so the maps are modelled as dense lists with
`getD _ []` playing the role of the missing-key-means-no-edges lookup. -/

/-- The directed graph. -/
structure DG where
  n : Nat
  outL : List (List (Nat × W))
  incL : List (List (Nat × W))
deriving DecidableEq

/-- `outgoing_edges` (missing key yields the empty iterator). -/
def DG.out (g : DG) (v : Nat) : List (Nat × W) := g.outL.getD v []

/-- `incoming_edges`. -/
def DG.inc (g : DG) (v : Nat) : List (Nat × W) := g.incL.getD v []

/-- `has_vertex`. -/
def DG.hasVertex (g : DG) (v : Nat) : Bool := v < g.n

/-- `DirectedGraph::new`. -/
def DG.new : DG := ⟨0, [], []⟩

/-- `add_vertex`: returns the updated graph and the fresh id. -/
def DG.addVertex (g : DG) : DG × Nat :=
  (⟨g.n + 1, g.outL ++ [[]], g.incL ++ [[]]⟩, g.n)

/-- Update the first pair with the given key (Rust's in-place weight update). -/
def updFirst (l : List (Nat × W)) (key : Nat) (w : W) : List (Nat × W) :=
  match l with
  | [] => []
  | p :: rest => if p.1 == key then (p.1, w) :: rest else p :: updFirst rest key w

/-- `add_edge`: rejects missing endpoints (negative weights cannot arise in
this weight model); updates the weight in place when the edge exists,
otherwise appends to both adjacency vectors. -/
def DG.addEdge (g : DG) (u v : Nat) (w : W) : DG × Bool :=
  if !(g.hasVertex u) || !(g.hasVertex v) then (g, false)
  else
    let oe := g.out u
    if (oe.find? (fun p => p.1 == v)).isSome then
      ({ g with outL := g.outL.set u (updFirst oe v w),
                incL := g.incL.set v (updFirst (g.inc v) u w) }, true)
    else
      ({ g with outL := g.outL.set u (oe ++ [(v, w)]),
                incL := g.incL.set v (g.inc v ++ [(u, w)]) }, true)

/-- `remove_edge`: drops every parallel copy from both adjacency vectors. -/
def DG.removeEdge (g : DG) (u v : Nat) : DG × Bool :=
  let oe := g.out u
  let oe1 := oe.filter (fun p => p.1 != v)
  ({ g with outL := g.outL.set u oe1,
            incL := g.incL.set v ((g.inc v).filter (fun p => p.1 != u)) },
   decide (oe1.length < oe.length))

/-- `get_edge_weight`. -/
def DG.getEdgeWeight (g : DG) (u v : Nat) : Option W :=
  ((g.out u).find? (fun p => p.1 == v)).map (·.2)

/-- All edges of the graph as (source, target, weight) triples. -/
def DG.edges (g : DG) : List (Nat × Nat × W) :=
  (List.range g.outL.length).flatMap (fun u => (g.outL.getD u []).map (fun p => (u, p.1, p.2)))

/-- Build a graph the way the repository's tests do: `n` `add_vertex` calls
followed by `add_edge` for each listed (source, target, weight) triple. -/
def mkGraph (n : Nat) (es : List (Nat × Nat × Nat)) : DG :=
  es.foldl (fun g e => (g.addEdge e.1 e.2.1 ((e.2.2 : Nat) : W)).1)
    ((List.range n).foldl (fun g _ => g.addVertex.1) DG.new)

/-! ## Mathematical shortest-path distances (the specification side) -/

/-- Total weight of a walk given as a vertex list; `some 0` for a single
vertex, `none` when some step is not an edge. -/
def walkCost (g : DG) : List Nat → Option W
  | [] => none
  | [_] => some 0
  | u :: v :: rest =>
    match g.getEdgeWeight u v, walkCost g (v :: rest) with
    | some w, some c => some (w + c)
    | _, _ => none

/-- `d` is the true shortest-path distance from `s` to `t`: some walk
realises it and no walk is cheaper. -/
def IsShortestDist (g : DG) (s t : Nat) (d : W) : Prop :=
  (∃ p, p.head? = some s ∧ p.getLast? = some t ∧ walkCost g p = some d) ∧
  ∀ p c, p.head? = some s → p.getLast? = some t → walkCost g p = some c → d ≤ c

theorem isShortestDist_unique {g : DG} {s t : Nat} {a b : W}
    (ha : IsShortestDist g s t a) (hb : IsShortestDist g s t b) : a = b := by
  obtain ⟨pa, h1a, h2a, h3a⟩ := ha.1
  obtain ⟨pb, h1b, h2b, h3b⟩ := hb.1
  exact le_antisymm (ha.2 pb b h1b h2b h3b) (hb.2 pa a h1a h2a h3a)

theorem mem_edges_of_getEdgeWeight {g : DG} {u v : Nat} {w : W}
    (h : g.getEdgeWeight u v = some w) : (u, v, w) ∈ g.edges := by
  unfold DG.getEdgeWeight at h
  obtain ⟨p, hfind, hp⟩ := Option.map_eq_some'.mp h
  have hmem : p ∈ g.out u := List.mem_of_find?_eq_some hfind
  have hkey : p.1 = v := by
    have := List.find?_some hfind
    simpa using this
  have hu : u < g.outL.length := by
    by_contra hlt
    have : g.out u = [] := by
      unfold DG.out
      exact List.getD_eq_default _ _ (Nat.le_of_not_lt hlt)
    simp [this] at hmem
  unfold DG.edges
  refine List.mem_flatMap.mpr ⟨u, List.mem_range.mpr hu, ?_⟩
  refine List.mem_map.mpr ⟨p, hmem, ?_⟩
  rw [hkey, hp]

/-- Feasible-potential lower bound: if `φ` is compatible with every edge
then every walk from `u` to `t` costs at least `φ t - φ u`. -/
theorem walkCost_potential_le (g : DG) (φ : Nat → W)
    (hedge : ∀ e ∈ g.edges, φ e.2.1 ≤ φ e.1 + e.2.2) :
    ∀ p u t c, p.head? = some u → p.getLast? = some t →
      walkCost g p = some c → φ t ≤ φ u + c := by
  intro p
  induction p with
  | nil => intro u t c h1 _ _; simp at h1
  | cons x rest ih =>
    intro u t c h1 h2 h3
    have hx : x = u := by simpa using h1
    subst hx
    cases rest with
    | nil =>
      have ht : x = t := by simpa using h2
      have hc : c = 0 := by
        unfold walkCost at h3
        simpa using h3.symm
      subst ht; subst hc; simp
    | cons y rest2 =>
      unfold walkCost at h3
      rcases hw : g.getEdgeWeight x y with _ | w
      · rw [hw] at h3; simp at h3
      · rcases hrest : walkCost g (y :: rest2) with _ | c2
        · rw [hw, hrest] at h3; simp at h3
        · rw [hw, hrest] at h3
          have hc : c = w + c2 := by simpa using h3.symm
          have h2r : (y :: rest2).getLast? = some t := by
            simpa [List.getLast?] using h2
          have hrec := ih y t c2 (by simp) h2r hrest
          have hstep : φ y ≤ φ x + w := hedge (x, y, w) (mem_edges_of_getEdgeWeight hw)
          calc φ t ≤ φ y + c2 := hrec
            _ ≤ (φ x + w) + c2 := add_le_add_right hstep c2
            _ = φ x + c := by rw [hc, add_assoc]

/-! ## Binary heap (std BinaryHeap of Reverse((W, usize)))

`BinaryHeap<Reverse<(W, usize)>>::pop` removes a maximal `Reverse` element,
i.e. the lexicographically smallest (weight, vertex) pair; equal pairs are
interchangeable, so the heap is modelled as a list popped at its minimum. -/

/-- Lexicographic order on heap entries. -/
def pairLt (a b : W × Nat) : Bool :=
  decide (a.1 < b.1) || (a.1 == b.1 && decide (a.2 < b.2))

/-- Minimum entry of the heap. -/
def heapMin : List (W × Nat) → Option (W × Nat)
  | [] => none
  | x :: rest =>
    match heapMin rest with
    | none => some x
    | some y => if pairLt y x then some y else some x

/-- `BinaryHeap::pop`. -/
def heapPop (h : List (W × Nat)) : Option ((W × Nat) × List (W × Nat)) :=
  match heapMin h with
  | none => none
  | some m => some (m, h.erase m)

/-! ## Dijkstra (src/algorithm/dijkstra.rs) -/

/-- Library error type (src/lib.rs `enum Error`). -/
inductive Err where
  | invalidVertex (v : Nat)
  | invalidEdge (u v : Nat)
  | negativeWeight
  | sourceNotFound
  | algorithmError (msg : String)
deriving DecidableEq

instance instDecEqExcept {ε α : Type} [DecidableEq ε] [DecidableEq α] :
    DecidableEq (Except ε α) := fun a b =>
  match a, b with
  | .error e, .error f =>
    if h : e = f then isTrue (by simp [h]) else isFalse (by simp [h])
  | .ok x, .ok y =>
    if h : x = y then isTrue (by simp [h]) else isFalse (by simp [h])
  | .error _, .ok _ => isFalse (by simp)
  | .ok _, .error _ => isFalse (by simp)

/-- Result record (`ShortestPathResult`). -/
structure SPResult where
  distances : List (Option W)
  predecessors : List (Option Nat)
  source : Nat
deriving DecidableEq

/-- Main Dijkstra loop; distances use the `Option` sentinel exactly as the
Rust implementation does. -/
def dijkstraLoop (g : DG) :
    Nat → List (W × Nat) → (Nat → Option W) → (Nat → Option Nat) →
    Option ((Nat → Option W) × (Nat → Option Nat))
  | 0, _, _, _ => none
  | fuel + 1, heap, d, pr =>
    match heapPop heap with
    | none => some (d, pr)
    | some ((du, u), heap1) =>
      if (match d u with | some cur => decide (cur < du) | none => false) then
        dijkstraLoop g fuel heap1 d pr
      else
        let st := (g.out u).foldl
          (fun (st : (Nat → Option W) × (Nat → Option Nat) × List (W × Nat)) p =>
            let nd := du + p.2
            let upd := match st.1 p.1 with
              | none => true
              | some cur => decide (nd < cur)
            if upd then
              (Function.update st.1 p.1 (some nd),
               Function.update st.2.1 p.1 (some u),
               st.2.2 ++ [(nd, p.1)])
            else st)
          (d, pr, heap1)
        dijkstraLoop g fuel st.2.2 st.1 st.2.1

/-- `Dijkstra::compute_shortest_paths`. -/
def dijkstraComputeShortestPaths (g : DG) (source : Nat) (fuel : Nat) :
    Option (Except Err SPResult) :=
  if !(g.hasVertex source) then some (.error .sourceNotFound)
  else
    let d0 : Nat → Option W := Function.update (fun _ => none) source (some 0)
    match dijkstraLoop g fuel [((0 : W), source)] d0 (fun _ => none) with
    | none => none
    | some (d, pr) =>
      some (.ok ⟨(List.range g.n).map d, (List.range g.n).map pr, source⟩)

/-! ## BMSSP (src/algorithm/bmssp.rs)

`execute` takes the derived parameters `k`, `t` (already clamped to ≥ 2 by
the constructors), a recursion `level` and a `bound`, and mutates the shared
distance/predecessor state.  The level-0 base case is a bounded Dijkstra;
the base case exposes, besides the Rust return value, the list of expanded
(settled) vertices and the list of discovered vertices (the source's
`result_vertices` before filtering), both of which are genuine program
values (`processed_count` counts the expanded list). -/

/-- Result of one `execute` call (`struct BMSSPResult`). -/
structure BMSSPRes where
  newBound : W
  vertices : List Nat
deriving DecidableEq

/-- State threaded through the base-case loops. -/
structure BCState where
  d : Nat → W
  pr : Nat → Option Nat
  heap : List (W × Nat)
  visited : Nat → Bool
  discovered : List Nat

/-- One relaxation step of the base case (the body of the `for` loop in
`BMSSP::process_edge_batch`): update only when the tentative distance is
`≤ bound` and strictly smaller than the current distance. -/
def pebStep (u : Nat) (du bound : W) (st : BCState) (p : Nat × W) : BCState :=
  let nd := du + p.2
  if nd ≤ bound ∧ nd < st.d p.1 then
    { d := Function.update st.d p.1 nd
      pr := Function.update st.pr p.1 (some u)
      heap := st.heap ++ [(nd, p.1)]
      visited := if st.visited p.1 then st.visited else Function.update st.visited p.1 true
      discovered := if st.visited p.1 then st.discovered else st.discovered ++ [p.1] }
  else st

/-- `BMSSP::process_edge_batch`: relax one batch of edges out of `u`. -/
def processEdgeBatch (u : Nat) (du bound : W) (batch : List (Nat × W)) (st : BCState) : BCState :=
  batch.foldl (pebStep u du bound) st

/-- `BMSSP::calculate_new_bound`.  The `getD` default is unreachable: the
caller only reaches the index when `resultSize > k` ("Safe because
result_size > self.k" in the source). -/
def calculateNewBound (k resultSize : Nat) (bound : W) (vertices : List Nat) (d : Nat → W) : W :=
  if resultSize ≤ k then bound
  else (sortW (vertices.map d)).getD k 0

/-- Main loop of the multi-source base case: pops at most `k * 2` counted
vertices; edges are processed in batches of 8 as in the source. -/
def bcLoop (g : DG) (k : Nat) (bound : W) :
    Nat → BCState → List Nat → Option (BCState × List Nat)
  | 0, _, _ => none
  | fuel + 1, st, expanded =>
    match heapPop st.heap with
    | none => some (st, expanded)
    | some ((du, u), heap1) =>
      let st1 := { st with heap := heap1 }
      if du > st.d u ∨ du > bound then bcLoop g k bound fuel st1 expanded
      else if expanded.length + 1 > k * 2 then some (st1, expanded)
      else
        let st2 := (chunkList 8 (g.out u)).foldl
          (fun s c => processEdgeBatch u du bound c s) st1
        bcLoop g k bound fuel st2 (expanded ++ [u])

/-- Loop of `BMSSP::mini_dijkstra` (single-source base case): at most `k`
counted vertices, direct edge iteration with the identical relaxation body
(modelled as one whole-list batch). -/
def mdLoop (g : DG) (k : Nat) (bound : W) :
    Nat → BCState → List Nat → Option (BCState × List Nat)
  | 0, _, _ => none
  | fuel + 1, st, expanded =>
    match heapPop st.heap with
    | none => some (st, expanded)
    | some ((du, u), heap1) =>
      let st1 := { st with heap := heap1 }
      if du > st.d u ∨ du > bound then mdLoop g k bound fuel st1 expanded
      else if expanded.length + 1 > k then some (st1, expanded)
      else mdLoop g k bound fuel (processEdgeBatch u du bound (g.out u) st1) (expanded ++ [u])

/-- Common tail of the base case, shared verbatim by `base_case` and
`mini_dijkstra` in the source: compute the new bound from the discovered
vertices and return them filtered to distance < new bound, together with
the final state and the expanded/discovered lists. -/
def bcPost (k : Nat) (bound : W) :
    Option (BCState × List Nat) →
    Option (BMSSPRes × (Nat → W) × (Nat → Option Nat) × List Nat × List Nat)
  | none => none
  | some (st, expanded) =>
    some (⟨calculateNewBound k st.discovered.length bound st.discovered st.d,
           st.discovered.filter (fun v =>
             decide (st.d v < calculateNewBound k st.discovered.length bound st.discovered st.d))⟩,
      st.d, st.pr, expanded, st.discovered)

/-- `BMSSP::mini_dijkstra`; returns, besides the Rust result and the updated
state, the expanded (settled) and the discovered vertex lists. -/
def miniDijkstra (g : DG) (k : Nat) (source : Nat) (bound : W)
    (d : Nat → W) (pr : Nat → Option Nat) (fuel : Nat) :
    Option (BMSSPRes × (Nat → W) × (Nat → Option Nat) × List Nat × List Nat) :=
  bcPost k bound (mdLoop g k bound fuel
    { d := d, pr := pr, heap := [(d source, source)]
      visited := Function.update (fun _ => false) source true
      discovered := [source] } [])

/-- Seeding fold of the multi-source base case: push each not-yet-seen
source onto the heap and into the discovered list. -/
def bcSeedStep (st : BCState) (s : Nat) : BCState :=
  if st.visited s then st
  else { st with heap := st.heap ++ [(st.d s, s)]
                 discovered := st.discovered ++ [s]
                 visited := Function.update st.visited s true }

/-- `BMSSP::base_case`. -/
def baseCase (g : DG) (k : Nat) (bound : W) (sources : List Nat)
    (d : Nat → W) (pr : Nat → Option Nat) (fuel : Nat) :
    Option (BMSSPRes × (Nat → W) × (Nat → Option Nat) × List Nat × List Nat) :=
  if sources.isEmpty then some (⟨bound, []⟩, d, pr, [], [])
  else if sources.length = 1 then miniDijkstra g k (sources.headD 0) bound d pr fuel
  else bcPost k bound (bcLoop g k bound fuel (sources.foldl bcSeedStep
    { d := d, pr := pr, heap := [], visited := fun _ => false, discovered := [] }) [])

/-! ### Pivot finder (`BMSSP::find_pivots`) -/

/-- State of the k-round frontier relaxation. -/
structure FPState where
  d : Nat → W
  pr : Nat → Option Nat
  visited : Nat → Bool
  work : List Nat
  frontier : List Nat

/-- The bounded Bellman-Ford-like rounds: each round relaxes every edge out
of the current frontier; newly improved unvisited vertices form the next
frontier. -/
def fpLoop (g : DG) (bound : W) : Nat → FPState → FPState
  | 0, st => st
  | steps + 1, st =>
    if st.frontier.isEmpty then st
    else
      let st1 := st.frontier.foldl (fun (acc : FPState) u =>
        (g.out u).foldl (fun acc p =>
          let pd := acc.d u + p.2
          if pd < acc.d p.1 ∧ pd < bound then
            let acc1 := { acc with d := Function.update acc.d p.1 pd
                                   pr := Function.update acc.pr p.1 (some u) }
            if acc.visited p.1 then acc1
            else { acc1 with visited := Function.update acc1.visited p.1 true
                             work := acc1.work ++ [p.1]
                             frontier := acc1.frontier ++ [p.1] }
          else acc) acc) { st with frontier := [] }
      fpLoop g bound steps st1

/-- Tree-size association list (`HashMap<usize, usize>`). -/
def tsGet (l : List (Nat × Nat)) (k : Nat) : Option Nat :=
  (l.find? (fun p => p.1 == k)).map (·.2)

/-- Insert/replace in the tree-size map. -/
def tsInsert (l : List (Nat × Nat)) (k v : Nat) : List (Nat × Nat) :=
  if (l.find? (fun p => p.1 == k)).isSome then
    l.map (fun p => if p.1 == k then (p.1, v) else p)
  else l ++ [(k, v)]

/-- The root search of `find_pivots`: walk predecessor links from `pred`
until a self-loop or a source is reached (returning that vertex) or a vertex
without predecessor is reached (returning the initial `pred`); the walk can
cycle, hence the fuel. -/
def rootFind (pr : Nat → Option Nat) (srcs : List Nat) :
    Nat → Nat → Nat → Option Nat
  | 0, _, _ => none
  | fuel + 1, current, root =>
    match pr current with
    | none => some root
    | some parent =>
      if parent = current ∨ current ∈ srcs then some current
      else rootFind pr srcs fuel parent root

/-- `BMSSP::find_pivots`.  The `forest` adjacency map in the source is built
but never read, so it is not modelled. -/
def findPivots (g : DG) (k : Nat) (bound : W) (sources : List Nat)
    (d : Nat → W) (pr : Nat → Option Nat) (fuel : Nat) :
    Option (List Nat × List Nat × (Nat → W) × (Nat → Option Nat)) :=
  let st0 : FPState :=
    { d := d, pr := pr
      visited := sources.foldl (fun vis s => Function.update vis s true) (fun _ => false)
      work := sources, frontier := sources }
  let st := fpLoop g bound k st0
  if st.work.length ≤ k * sources.length then some (sources, st.work, st.d, st.pr)
  else
    let ts0 := sources.foldl (fun ts s => tsInsert ts s 1) []
    let tsOpt := st.work.foldl (fun (acc : Option (List (Nat × Nat))) v =>
      match acc with
      | none => none
      | some ts =>
        match st.pr v with
        | none => some ts
        | some pred =>
          if pred = v then some ts
          else
            match rootFind st.pr sources fuel pred pred with
            | none => none
            | some root =>
              some (tsInsert ts root
                (match tsGet ts root with | some s => s + 1 | none => 2))) (some ts0)
    match tsOpt with
    | none => none
    | some ts =>
      let pivots := sources.filter
        (fun s => match tsGet ts s with | some sz => decide (sz ≥ k) | none => false)
      let best := sources.foldl (fun (best : Option Nat) s =>
        match best with
        | none => some s
        | some b => if (tsGet ts s).getD 0 ≥ (tsGet ts b).getD 0 then some s else some b) none
      let pivots1 :=
        if pivots.isEmpty && !sources.isEmpty then [best.getD 0] else pivots
      some (pivots1, st.work, st.d, st.pr)

/-! ### The recursive driver (`BMSSP::execute`) -/

/-- Deduplicating insertion modelling `HashSet::insert` with deterministic
(first-insertion) order; nothing proved below depends on the order. -/
def insertDedup (l : List Nat) (x : Nat) : List Nat :=
  if x ∈ l then l else l ++ [x]

/-- The main `while` loop of `execute`.  `recur` is the recursive call at
`level - 1`.  Returns the accumulated result set, the final `prev_bound`
and the updated state. -/
def executeLoop (g : DG) (k t level : Nat) (bound : W) (blockSize : Nat)
    (recur : W → List Nat → (Nat → W) → (Nat → Option Nat) →
      Option (Except Err (BMSSPRes × (Nat → W) × (Nat → Option Nat)))) :
    Nat → BlockList → List Nat → W → (Nat → W) → (Nat → Option Nat) →
    Option (Except Err (List Nat × W × (Nat → W) × (Nat → Option Nat)))
  | 0, _, _, _, _, _ => none
  | fuel + 1, bl, resultVertices, prevBound, d, pr =>
    if resultVertices.length < k * 2 ^ (level * t) ∧ bl.isEmpty = false then
      let pulled := bl.pull blockSize
      let si := pulled.1
      let bi := pulled.2.1
      match recur bi si d pr with
      | none => none
      | some (.error e) => some (.error e)
      | some (.ok (res, d1, pr1)) =>
        let ui := res.vertices
        let newBound := res.newBound
        let rv1 := ui.foldl insertDedup resultVertices
        let relaxed := ui.foldl
          (fun (acc : Option ((Nat → W) × (Nat → Option Nat) × BlockList × List (Nat × W))) u =>
            match acc with
            | none => none
            | some st =>
              (g.out u).foldl
                (fun (acc2 : Option ((Nat → W) × (Nat → Option Nat) × BlockList × List (Nat × W))) p =>
                  match acc2 with
                  | none => none
                  | some (d2, pr2, bl2, batch) =>
                    let pd := d2 u + p.2
                    if pd < d2 p.1 then
                      let d3 := Function.update d2 p.1 pd
                      let pr3 := Function.update pr2 p.1 (some u)
                      if bi ≤ pd ∧ pd < bound then
                        match bl2.insert p.1 pd with
                        | none => none
                        | some bl3 => some (d3, pr3, bl3, batch)
                      else if newBound ≤ pd ∧ pd < bi then
                        some (d3, pr3, bl2, batch ++ [(p.1, pd)])
                      else some (d3, pr3, bl2, batch)
                    else acc2) (some st))
          (some (d1, pr1, pulled.2.2, []))
        match relaxed with
        | none => none
        | some (d2, pr2, bl2, batch) =>
          match bl2.batchPrepend batch with
          | none => none
          | some bl3 =>
            let siRe := (si.filter (fun v => decide (newBound ≤ d2 v ∧ d2 v < bi))).map
              (fun v => (v, d2 v))
            match (if siRe.isEmpty then some bl3 else bl3.batchPrepend siRe) with
            | none => none
            | some bl4 =>
              if rv1.length ≥ k * 2 ^ (level * t) then
                some (.ok (rv1, newBound, d2, pr2))
              else
                executeLoop g k t level bound blockSize recur fuel bl4 rv1 newBound d2 pr2
    else some (.ok (resultVertices, prevBound, d, pr))

/-- `BMSSP::execute`: rejects empty source sets, delegates to the base case
at level 0, and otherwise runs pivot finding plus the bounded loop. -/
def execute (g : DG) (k t : Nat) :
    Nat → Nat → W → List Nat → (Nat → W) → (Nat → Option Nat) →
    Option (Except Err (BMSSPRes × (Nat → W) × (Nat → Option Nat)))
  | level, fuel, bound, sources, d, pr =>
    if sources.isEmpty then some (.error (.algorithmError "Empty sources set"))
    else
      match level with
      | 0 =>
        match baseCase g k bound sources d pr fuel with
        | none => none
        | some (res, d1, pr1, _, _) => some (.ok (res, d1, pr1))
      | level1 + 1 =>
        match findPivots g k bound sources d pr fuel with
        | none => none
        | some (pivots, workSet, d1, pr1) =>
          let blockSize := 2 ^ (level1 * t)
          let blOpt := pivots.foldl (fun acc p =>
            match acc with
            | none => none
            | some bl => BlockList.insert bl p (d1 p)) (some (BlockList.new blockSize bound))
          match blOpt with
          | none => none
          | some bl1 =>
            let prevBound0 :=
              if !pivots.isEmpty then
                pivots.foldl (fun a p => if d1 p < a then d1 p else a) ⊤
              else bound
            let rv0 := sources.foldl insertDedup []
            match executeLoop g k t (level1 + 1) bound blockSize
                (fun b s dd pp => execute g k t level1 fuel b s dd pp)
                fuel bl1 rv0 prevBound0 d1 pr1 with
            | none => none
            | some (.error e) => some (.error e)
            | some (.ok (rv, prevBound, d2, pr2)) =>
              let rvFinal := (workSet.filter (fun v => decide (d2 v < prevBound))).foldl
                insertDedup rv
              some (.ok (⟨min bound prevBound, rvFinal⟩, d2, pr2))

/-! ## FastSSSP glue (src/algorithm/fast_sssp.rs)

`FastSSSP::compute_shortest_paths` with the default configuration
(`DegreeMode::None`, `small_reach_fraction = 0.05`, reachability sweep off)
and a caller-chosen `vertex_threshold`.  The quantities the source derives
through `f64` arithmetic are taken as parameters: `reachThreshold` is
`(0.05 * n as f64) as usize`, and `kParam`/`tParam`/`levelParam` are
`ln(n)^(1/3)`, `ln(n)^(2/3)` and `ln(n)/t`, each rounded up (the concrete
theorems instantiate them with the values those expressions take at the
concrete `n`, noted where they are used). -/

/-- The BFS of `FastSSSP::approx_reachable` (cap 256 in the caller). -/
def arLoop (g : DG) (limit : Nat) :
    Nat → List Nat → (Nat → Bool) → Nat → Option Nat
  | 0, _, _, _ => none
  | fuel + 1, queue, visited, count =>
    match queue with
    | [] => some count
    | v :: rest =>
      if count ≥ limit then some ((count * g.n) / limit)
      else
        let upd := (g.out v).foldl
          (fun (acc : List Nat × (Nat → Bool) × Nat) p =>
            if acc.2.1 p.1 then acc
            else (acc.1 ++ [p.1], Function.update acc.2.1 p.1 true, acc.2.2 + 1))
          (rest, visited, count)
        arLoop g limit fuel upd.1 upd.2.1 upd.2.2

/-- `FastSSSP::approx_reachable`. -/
def approxReachable (g : DG) (source limit fuel : Nat) : Option Nat :=
  arLoop g limit fuel [source] (Function.update (fun _ => false) source true) 1

/-- `FastSSSP::compute_shortest_paths` (default settings, threshold chosen
by the caller via `with_vertex_threshold`). -/
def fastSSSPCompute (g : DG) (source : Nat)
    (vertexThreshold reachThreshold kParam tParam levelParam fuel : Nat) :
    Option (Except Err SPResult) :=
  if !(g.hasVertex source) then some (.error .sourceNotFound)
  else if (List.range g.n).any (fun v => (g.out v).any (fun p => decide (p.2 < 0))) then
    some (.error .negativeWeight)
  else
    match approxReachable g source 256 fuel with
    | none => none
    | some reach =>
      if reach < reachThreshold then dijkstraComputeShortestPaths g source fuel
      else if g.n ≥ vertexThreshold then
        let k := max kParam 2
        let t := max tParam 2
        let d0 : Nat → W := Function.update (fun _ => ⊤) source 0
        let pr0 : Nat → Option Nat := Function.update (fun _ => none) source (some source)
        match execute g k t levelParam fuel ⊤ [source] d0 pr0 with
        | none => none
        | some (.error e) => some (.error e)
        | some (.ok (_, d, pr)) =>
          some (.ok ⟨(List.range g.n).map (fun v => if d v = ⊤ then none else some (d v)),
                     (List.range g.n).map pr, source⟩)
      else dijkstraComputeShortestPaths g source fuel

/-! ### Projections used to state theorems about runs whose state includes
functions (function-valued components have no decidable equality, so the
theorems below speak about these observations). -/

/-- Distance observed at `v` after a successful `execute` run. -/
def runDist (r : Option (Except Err (BMSSPRes × (Nat → W) × (Nat → Option Nat)))) (v : Nat) :
    Option W :=
  match r with
  | some (.ok (_, d, _)) => some (d v)
  | _ => none

/-- Result record of a successful `execute` run. -/
def runRes (r : Option (Except Err (BMSSPRes × (Nat → W) × (Nat → Option Nat)))) :
    Option BMSSPRes :=
  match r with
  | some (.ok (res, _, _)) => some res
  | _ => none

/-! ## Hub split (src/graph/hub_split.rs)

`HubSplit::transform(&mut self)`: for every original vertex whose out- or
in-degree exceeds `delta`, the outgoing edges are re-distributed over a
zero-weight chain of replicas in chunks of size `delta`, and the incoming
edges over a star of replicas all pointing at the vertex with zero-weight
edges. -/

/-- The `HubSplit` wrapper. -/
structure HubSplit where
  graph : DG
  delta : Nat
  v2o : List Nat
  o2v : List (List Nat)
deriving DecidableEq

/-- `HubSplit::new`. -/
def HubSplit.new (g : DG) (delta : Nat) : HubSplit :=
  ⟨g, delta, List.range g.n, (List.range g.n).map (fun i => [i])⟩

/-- `HubSplit::needs_split`. -/
def needsSplit (h : HubSplit) (v : Nat) : Bool :=
  decide ((h.graph.out v).length > h.delta) || decide ((h.graph.inc v).length > h.delta)

/-- Append fresh replica ids to `original_to_vertices[v]`. -/
def o2vPush (l : List (List Nat)) (v : Nat) (ids : List Nat) : List (List Nat) :=
  l.set v (l.getD v [] ++ ids)

/-- Create `count` fresh vertices, returning the grown graph and their ids. -/
def addVertices (g : DG) (count : Nat) : DG × List Nat :=
  (List.range count).foldl
    (fun (acc : DG × List Nat) _ =>
      let r := acc.1.addVertex
      (r.1, acc.2 ++ [r.2])) (g, [])

/-- The body of `HubSplit::transform` for one vertex `v`. -/
def hubSplitVertex (h : HubSplit) (v : Nat) : HubSplit :=
  if !needsSplit h v then h
  else
    let h1 :=
      let outEdges := h.graph.out v
      if outEdges.length > h.delta then
        let g1 := outEdges.foldl (fun g p => (DG.removeEdge g v p.1).1) h.graph
        let chunks := chunkList h.delta outEdges
        let gi := addVertices g1 (chunks.length - 1)
        let chain := v :: gi.2
        let g3 := (List.range (chain.length - 1)).foldl
          (fun g i => (DG.addEdge g (chain.getD i 0) (chain.getD (i + 1) 0) 0).1) gi.1
        let g4 := chunks.enum.foldl (fun g ic =>
          ic.2.foldl (fun g p => (DG.addEdge g (chain.getD ic.1 0) p.1 p.2).1) g) g3
        { graph := g4, delta := h.delta
          v2o := h.v2o ++ gi.2.map (fun _ => v)
          o2v := o2vPush h.o2v v gi.2 }
      else h
    let inEdges := h1.graph.inc v
    if inEdges.length > h1.delta then
      let g1 := inEdges.foldl (fun g p => (DG.removeEdge g p.1 v).1) h1.graph
      let chunks := chunkList h1.delta inEdges
      let gi := addVertices g1 (chunks.length - 1)
      let tree := v :: gi.2
      let g3 := (List.range tree.length).foldl
        (fun g i => if i == 0 then g else (DG.addEdge g (tree.getD i 0) v 0).1) gi.1
      let g4 := chunks.enum.foldl (fun g ic =>
        ic.2.foldl (fun g p => (DG.addEdge g p.1 (tree.getD ic.1 0) p.2).1) g) g3
      { graph := g4, delta := h1.delta
        v2o := h1.v2o ++ gi.2.map (fun _ => v)
        o2v := o2vPush h1.o2v v gi.2 }
    else h1

/-- `HubSplit::transform` (the mutating method actually used by the
algorithm selector): iterates over the original vertices `0..n`. -/
def hubSplitTransform (h : HubSplit) : HubSplit :=
  (List.range h.graph.n).foldl hubSplitVertex h

/-! ## Invariant lemmas for the base case (claims C4 and C5) -/


/-- Update discipline of the base case. -/
def UpdOk (bound : W) (d d1 : Nat → W) (pr pr1 : Nat → Option Nat) : Prop :=
  ∀ v, d1 v ≠ d v ∨ pr1 v ≠ pr v → d1 v < d v ∧ d1 v ≤ bound

theorem updOk_refl (bound : W) (d : Nat → W) (pr : Nat → Option Nat) :
    UpdOk bound d d pr pr := by
  intro v hv
  rcases hv with h | h <;> exact absurd rfl h

theorem updOk_trans {bound : W} {d d1 d2 : Nat → W} {pr pr1 pr2 : Nat → Option Nat}
    (h1 : UpdOk bound d d1 pr pr1) (h2 : UpdOk bound d1 d2 pr1 pr2) :
    UpdOk bound d d2 pr pr2 := by
  intro v hv
  by_cases hc : d2 v = d1 v ∧ pr2 v = pr1 v
  · obtain ⟨hd, hp⟩ := hc
    rw [hd, hp] at hv
    have h := h1 v hv
    exact ⟨by rw [hd]; exact h.1, by rw [hd]; exact h.2⟩
  · have h2v := h2 v (not_and_or.mp hc |>.imp id id)
    by_cases hd1 : d1 v = d v
    · exact ⟨by rw [← hd1]; exact h2v.1, h2v.2⟩
    · exact ⟨lt_trans h2v.1 (h1 v (Or.inl hd1)).1, h2v.2⟩

theorem pebStep_updok (u : Nat) (du bound : W) (st : BCState) (p : Nat × W) :
    UpdOk bound st.d (pebStep u du bound st p).d st.pr (pebStep u du bound st p).pr := by
  unfold pebStep
  by_cases hcond : du + p.2 ≤ bound ∧ du + p.2 < st.d p.1
  · rw [if_pos hcond]
    intro v hv
    by_cases hvp : v = p.1
    · subst hvp
      simp only [Function.update_same]
      exact ⟨hcond.2, hcond.1⟩
    · simp only [Function.update_noteq hvp] at hv ⊢
      rcases hv with h | h <;> exact absurd rfl h
  · rw [if_neg hcond]
    exact updOk_refl bound st.d st.pr

theorem processEdgeBatch_updok (u : Nat) (du bound : W) (batch : List (Nat × W)) (st : BCState) :
    UpdOk bound st.d (processEdgeBatch u du bound batch st).d
      st.pr (processEdgeBatch u du bound batch st).pr := by
  induction batch generalizing st with
  | nil => exact updOk_refl bound st.d st.pr
  | cons p rest ih =>
    have h1 := pebStep_updok u du bound st p
    have h2 := ih (pebStep u du bound st p)
    exact updOk_trans h1 h2

theorem pebChunks_updok (u : Nat) (du bound : W) (cs : List (List (Nat × W))) (st : BCState) :
    UpdOk bound st.d (cs.foldl (fun s c => processEdgeBatch u du bound c s) st).d
      st.pr (cs.foldl (fun s c => processEdgeBatch u du bound c s) st).pr := by
  induction cs generalizing st with
  | nil => exact updOk_refl bound st.d st.pr
  | cons c rest ih =>
    exact updOk_trans (processEdgeBatch_updok u du bound c st)
      (ih (processEdgeBatch u du bound c st))

theorem mdLoop_updok (g : DG) (k : Nat) (bound : W) :
    ∀ (fuel : Nat) (st : BCState) (exp : List Nat) (out : BCState × List Nat),
      mdLoop g k bound fuel st exp = some out →
      UpdOk bound st.d out.1.d st.pr out.1.pr := by
  intro fuel
  induction fuel with
  | zero => intro st exp out h; simp [mdLoop] at h
  | succ n ih =>
    intro st exp out h
    rw [mdLoop] at h
    rcases hpop : heapPop st.heap with _ | ⟨⟨du, u⟩, heap1⟩
    · rw [hpop] at h
      simp only [Option.some.injEq] at h
      rw [← h]
      exact updOk_refl bound st.d st.pr
    · rw [hpop] at h
      simp only at h
      split at h
      · exact ih { st with heap := heap1 } exp out h
      · split at h
        · simp only [Option.some.injEq] at h
          rw [← h]
          exact updOk_refl bound st.d st.pr
        · exact updOk_trans
            (processEdgeBatch_updok u du bound (g.out u) { st with heap := heap1 })
            (ih (processEdgeBatch u du bound (g.out u) { st with heap := heap1 })
              (exp ++ [u]) out h)

theorem bcLoop_updok (g : DG) (k : Nat) (bound : W) :
    ∀ (fuel : Nat) (st : BCState) (exp : List Nat) (out : BCState × List Nat),
      bcLoop g k bound fuel st exp = some out →
      UpdOk bound st.d out.1.d st.pr out.1.pr := by
  intro fuel
  induction fuel with
  | zero => intro st exp out h; simp [bcLoop] at h
  | succ n ih =>
    intro st exp out h
    rw [bcLoop] at h
    rcases hpop : heapPop st.heap with _ | ⟨⟨du, u⟩, heap1⟩
    · rw [hpop] at h
      simp only [Option.some.injEq] at h
      rw [← h]
      exact updOk_refl bound st.d st.pr
    · rw [hpop] at h
      simp only at h
      split at h
      · exact ih { st with heap := heap1 } exp out h
      · split at h
        · simp only [Option.some.injEq] at h
          rw [← h]
          exact updOk_refl bound st.d st.pr
        · exact updOk_trans
            (pebChunks_updok u du bound (chunkList 8 (g.out u)) { st with heap := heap1 })
            (ih ((chunkList 8 (g.out u)).foldl (fun s c => processEdgeBatch u du bound c s)
                { st with heap := heap1 })
              (exp ++ [u]) out h)

theorem mdLoop_expanded_le (g : DG) (k : Nat) (bound : W) :
    ∀ (fuel : Nat) (st : BCState) (exp : List Nat) (out : BCState × List Nat),
      mdLoop g k bound fuel st exp = some out →
      exp.length ≤ k → out.2.length ≤ k := by
  intro fuel
  induction fuel with
  | zero => intro st exp out h; simp [mdLoop] at h
  | succ n ih =>
    intro st exp out h hle
    rw [mdLoop] at h
    rcases hpop : heapPop st.heap with _ | ⟨⟨du, u⟩, heap1⟩
    · rw [hpop] at h
      simp only [Option.some.injEq] at h
      rw [← h]
      exact hle
    · rw [hpop] at h
      simp only at h
      split at h
      · exact ih _ _ _ h hle
      · rename_i hgt
        split at h
        · rename_i hbig
          simp only [Option.some.injEq] at h
          rw [← h]
          exact hle
        · rename_i hsmall
          refine ih _ _ _ h ?_
          simp only [List.length_append, List.length_cons, List.length_nil]
          omega

theorem bcLoop_expanded_le (g : DG) (k : Nat) (bound : W) :
    ∀ (fuel : Nat) (st : BCState) (exp : List Nat) (out : BCState × List Nat),
      bcLoop g k bound fuel st exp = some out →
      exp.length ≤ k * 2 → out.2.length ≤ k * 2 := by
  intro fuel
  induction fuel with
  | zero => intro st exp out h; simp [bcLoop] at h
  | succ n ih =>
    intro st exp out h hle
    rw [bcLoop] at h
    rcases hpop : heapPop st.heap with _ | ⟨⟨du, u⟩, heap1⟩
    · rw [hpop] at h
      simp only [Option.some.injEq] at h
      rw [← h]
      exact hle
    · rw [hpop] at h
      simp only at h
      split at h
      · exact ih _ _ _ h hle
      · split at h
        · rename_i hbig
          simp only [Option.some.injEq] at h
          rw [← h]
          exact hle
        · rename_i hsmall
          refine ih _ _ _ h ?_
          simp only [List.length_append, List.length_cons, List.length_nil]
          omega



theorem bcPost_props (k : Nat) (bound : W) (r : Option (BCState × List Nat))
    (res : BMSSPRes) (d1 : Nat → W) (pr1 : Nat → Option Nat)
    (expanded discovered : List Nat)
    (h : bcPost k bound r = some (res, d1, pr1, expanded, discovered)) :
    (∃ st exp, r = some (st, exp) ∧ d1 = st.d ∧ pr1 = st.pr ∧ expanded = exp ∧
       discovered = st.discovered) ∧
    (∀ v ∈ res.vertices, d1 v < res.newBound) ∧
    (discovered.length ≤ k → res.newBound = bound) ∧
    (k < discovered.length →
      res.newBound = (sortW (discovered.map d1)).getD k 0) ∧
    res.vertices = discovered.filter (fun v => decide (d1 v < res.newBound)) := by
  rcases r with _ | ⟨st, exp⟩
  · exact absurd h (by simp [bcPost])
  · unfold bcPost at h
    simp only [Option.some.injEq, Prod.mk.injEq] at h
    obtain ⟨h1, h2, h3, h4, h5⟩ := h
    refine ⟨⟨st, exp, rfl, h2.symm, h3.symm, h4.symm, h5.symm⟩, ?_, ?_, ?_, ?_⟩
    · intro v hv
      rw [← h1] at hv
      simp only at hv
      rw [← h1, ← h2]
      simp only
      exact of_decide_eq_true ((List.mem_filter.mp hv).2)
    · intro hlen
      rw [← h1]
      simp only
      unfold calculateNewBound
      rw [← h5] at hlen
      rw [if_pos hlen]
    · intro hlen
      rw [← h1, ← h5, ← h2]
      simp only
      unfold calculateNewBound
      rw [← h5] at hlen
      rw [if_neg (not_le.mpr hlen)]
    · rw [← h1, ← h5, ← h2]

theorem bcSeed_d_pr (sources : List Nat) (st : BCState) :
    (sources.foldl bcSeedStep st).d = st.d ∧ (sources.foldl bcSeedStep st).pr = st.pr := by
  induction sources generalizing st with
  | nil => exact ⟨rfl, rfl⟩
  | cons s rest ih =>
    simp only [List.foldl_cons]
    have hstep_d : (bcSeedStep st s).d = st.d := by unfold bcSeedStep; split <;> rfl
    have hstep_pr : (bcSeedStep st s).pr = st.pr := by unfold bcSeedStep; split <;> rfl
    obtain ⟨ha, hb⟩ := ih (bcSeedStep st s)
    exact ⟨ha.trans hstep_d, hb.trans hstep_pr⟩

/-- Claim C4 (amended): the base case settles at most `k * 2` distinct
vertices in the multi-source path and at most `k` in the single-source
mini-Dijkstra path (not `k + 1`), and the returned pair `(B', U)` is
computed from the *discovered* vertices (the seeded sources plus every
vertex that received an improved tentative distance), not from the settled
ones: every vertex of `U` has current distance strictly below `B'`; if at
most `k` vertices were discovered then `B' = B`; otherwise `B'` equals the
`(k+1)`-th smallest current distance among the discovered vertices (index
`k` of the sorted distances); and in both cases `U` is the set of
discovered vertices with distance `< B'`. -/
theorem c4_base_case_contract_amended (g : DG) (k : Nat) (bound : W) (sources : List Nat)
    (d : Nat → W) (pr : Nat → Option Nat) (fuel : Nat)
    (res : BMSSPRes) (d1 : Nat → W) (pr1 : Nat → Option Nat)
    (expanded discovered : List Nat)
    (h : baseCase g k bound sources d pr fuel = some (res, d1, pr1, expanded, discovered)) :
    expanded.length ≤ k * 2 ∧
    (sources.length = 1 → expanded.length ≤ k) ∧
    (∀ v ∈ res.vertices, d1 v < res.newBound) ∧
    (discovered.length ≤ k → res.newBound = bound) ∧
    (k < discovered.length →
      res.newBound = (sortW (discovered.map d1)).getD k 0) ∧
    res.vertices = discovered.filter (fun v => decide (d1 v < res.newBound)) := by
  unfold baseCase at h
  split at h
  · rename_i hemp
    have hnil : sources = [] := by simpa using hemp
    simp only [Option.some.injEq, Prod.mk.injEq] at h
    obtain ⟨h1, _, _, h4, h5⟩ := h
    refine ⟨by simp [← h4], by simp [hnil], ?_, fun _ => by rw [← h1], ?_, ?_⟩
    · intro v hv
      rw [← h1] at hv
      simp at hv
    · intro hlen
      rw [← h5] at hlen
      simp at hlen
    · rw [← h1, ← h5]
      simp
  · split at h
    · unfold miniDijkstra at h
      obtain ⟨⟨st, exp, hr, _, _, hexp, _⟩, hb, hc, hd, he⟩ :=
        bcPost_props k bound _ res d1 pr1 expanded discovered h
      have hlen := mdLoop_expanded_le g k bound fuel _ [] (st, exp) hr (Nat.zero_le k)
      simp only at hlen
      refine ⟨by rw [hexp]; omega, fun _ => by rw [hexp]; exact hlen, hb, hc, hd, he⟩
    · rename_i hone
      obtain ⟨⟨st, exp, hr, _, _, hexp, _⟩, hb, hc, hd, he⟩ :=
        bcPost_props k bound _ res d1 pr1 expanded discovered h
      have hlen := bcLoop_expanded_le g k bound fuel _ [] (st, exp) hr (Nat.zero_le (k * 2))
      simp only at hlen
      exact ⟨by rw [hexp]; exact hlen, fun h1 => absurd h1 hone, hb, hc, hd, he⟩

/-- Claim C5 (amended): during a level-0 (base case) execution with bound
`B`, the distance and predecessor of a vertex `v` change only when the new
tentative distance is strictly smaller than the current `d[v]` and `≤ B`
(the source compares `new_dist <= bound`, not `<`): any touched entry ends
strictly below its initial value and at most `B`. -/
theorem c5_base_case_update_discipline (g : DG) (k : Nat) (bound : W) (sources : List Nat)
    (d : Nat → W) (pr : Nat → Option Nat) (fuel : Nat)
    (res : BMSSPRes) (d1 : Nat → W) (pr1 : Nat → Option Nat)
    (expanded discovered : List Nat)
    (h : baseCase g k bound sources d pr fuel = some (res, d1, pr1, expanded, discovered)) :
    UpdOk bound d d1 pr pr1 := by
  unfold baseCase at h
  split at h
  · simp only [Option.some.injEq, Prod.mk.injEq] at h
    obtain ⟨_, h2, h3, _, _⟩ := h
    rw [← h2, ← h3]
    exact updOk_refl bound d pr
  · split at h
    · unfold miniDijkstra at h
      obtain ⟨⟨st, exp, hr, hd1, hpr1, _, _⟩, _⟩ :=
        bcPost_props k bound _ res d1 pr1 expanded discovered h
      have hupd := mdLoop_updok g k bound fuel _ [] (st, exp) hr
      rw [hd1, hpr1]
      exact hupd
    · obtain ⟨⟨st, exp, hr, hd1, hpr1, _, _⟩, _⟩ :=
        bcPost_props k bound _ res d1 pr1 expanded discovered h
      have hupd := bcLoop_updok g k bound fuel _ [] (st, exp) hr
      obtain ⟨hsd, hspr⟩ := bcSeed_d_pr sources
        { d := d, pr := pr, heap := [], visited := fun _ => false, discovered := [] }
      rw [hsd, hspr] at hupd
      rw [hd1, hpr1]
      exact hupd


/-! ## Concrete inputs used to settle the claims -/

/-- Counterexample graph for the BMSSP engine: vertices 0..4, edges
0→1 (10), 0→2 (1), 2→3 (1), 3→1 (1); vertex 4 is isolated.  The true
distance from 0 to 1 is 3 (via 0→2→3→1), but only 2 pivot-finding rounds
run (k = 2), so d[1] is left at the tentative 10 and the level-0 call never
re-enqueues it. -/
def G5 : DG := mkGraph 5 [(0, 1, 10), (0, 2, 1), (2, 3, 1), (3, 1, 1)]

/-- Feasible potential on `G5` witnessing the shortest-path lower bounds. -/
def phiG5 : Nat → W := fun v =>
  match v with
  | 0 => 0 | 1 => 3 | 2 => 1 | 3 => 2 | _ => 0

theorem G5_shortest_0_1 : IsShortestDist G5 0 1 3 := by
  constructor
  · exact ⟨[0, 2, 3, 1], by decide, by decide, by decide⟩
  · intro p c h1 h2 h3
    have := walkCost_potential_le G5 phiG5 (by decide) p 0 1 c h1 h2 h3
    simpa [phiG5] using this

theorem G5_not_shortest_0_1_10 : ¬ IsShortestDist G5 0 1 10 := by
  intro h
  have := isShortestDist_unique G5_shortest_0_1 h
  exact absurd this (by decide)

/-- Initial state used by the top level of `FastSSSP` before calling the
BMSSP engine on `G5` (distance 0 at the source, `MAX` elsewhere). -/
def dInit5 : Nat → W := Function.update (fun _ => ⊤) 0 0

/-- Initial predecessors: the source points to itself. -/
def prInit5 : Nat → Option Nat := Function.update (fun _ => none) 0 (some 0)

/-- The `BMSSP::execute` run on `G5` from the top level (level 1, unbounded,
single source 0, parameters k = t = 2 as derived for n = 5). -/
def c3run : Option (Except Err (BMSSPRes × (Nat → W) × (Nat → Option Nat))) :=
  execute G5 2 2 1 40 ⊤ [0] dInit5 prInit5

/-! ### Claim C1 -/

/-- Claim C1: for every successful `compute_shortest_paths(graph, source)`
call, `distances[v]` equals the true shortest-path distance (`None` iff
unreachable).  The FastSSSP implementation violates this: configured with
`with_vertex_threshold(5)` (so that the BMSSP branch runs) on `G5` with
source 0, the call succeeds and returns `distances[1] = Some 10`, while the
true shortest-path distance from 0 to 1 is 3.  The embedded call passes
`vertexThreshold = 5`, `reachThreshold = (0.05 * 5) as usize = 0`, and the
parameters the source computes through `f64` arithmetic at n = 5:
`k = ⌈ln(5)^(1/3)⌉ = 2`, `t = ⌈ln(5)^(2/3)⌉ = 2`, `level = ⌈ln(5)/t⌉ = 1`
(ln 5 ≈ 1.609). -/
theorem c1_fastSSSP_wrong_distance :
    fastSSSPCompute G5 0 5 0 2 2 1 60 =
      some (.ok ⟨[some 0, some 10, some 1, some 2, none],
                 [some 0, some 0, some 0, some 2, none], 0⟩) ∧
    IsShortestDist G5 0 1 3 ∧ ¬ IsShortestDist G5 0 1 10 :=
  ⟨by decide, G5_shortest_0_1, G5_not_shortest_0_1_10⟩

/-! ### Claim C2 -/

/-- Claim C2: Dijkstra and the BMSSP-based FastSSSP yield identical
distances on every input.  They do not: on `G5` (source 0) Dijkstra returns
`distances[1] = Some 3` while FastSSSP (vertex threshold 5, parameters as
in C1) returns `distances[1] = Some 10`. -/
theorem c2_dijkstra_fastSSSP_distances_differ :
    dijkstraComputeShortestPaths G5 0 20 =
      some (.ok ⟨[some 0, some 3, some 1, some 2, none],
                 [none, some 3, some 0, some 2, none], 0⟩) ∧
    fastSSSPCompute G5 0 5 0 2 2 1 60 =
      some (.ok ⟨[some 0, some 10, some 1, some 2, none],
                 [some 0, some 0, some 0, some 2, none], 0⟩) ∧
    ([some 0, some 3, some 1, some 2, none] : List (Option W)) ≠
      [some 0, some 10, some 1, some 2, none] :=
  ⟨by decide, by decide, by decide⟩

/-! ### Claim C3 -/

/-- Claim C3: after `BMSSP::execute(ℓ, B, S)` returns `(B', U)`, every
vertex in `U` has `distances[·] < B'` *and that value is final*, `|U| ≤
k·2^{ℓt}`, and `B' ≤ B`.  The finality clause fails: the run on `G5`
(level 1, B = ⊤, S = {0}, k = t = 2) returns `B' = ⊤` and
`U = {0, 1, 2, 3}` with `distances[1] = 10`, but the true shortest-path
distance from the source to 1 is 3, so the value of vertex 1 ∈ U is not
final. -/
theorem c3_bmssp_returns_nonfinal_distance :
    runRes c3run = some ⟨⊤, [0, 1, 2, 3]⟩ ∧
    runDist c3run 1 = some 10 ∧
    IsShortestDist G5 0 1 3 ∧ ¬ IsShortestDist G5 0 1 10 :=
  ⟨by decide, by decide, G5_shortest_0_1, G5_not_shortest_0_1_10⟩

/-! ### Claim C4 -/

/-- Chain graph for the base-case counterexample: 0→2→3→4→5 with unit
weights; vertex 1 is an isolated second source. -/
def G6 : DG := mkGraph 6 [(0, 2, 1), (2, 3, 1), (3, 4, 1), (4, 5, 1)]

/-- Initial distances for the `G6` base-case run: 0 at both sources. -/
def dInit6 : Nat → W := fun v => if v = 0 ∨ v = 1 then 0 else ⊤

/-- The level-0 (base case) run on `G6` with k = 2, bound 100 and sources
{0, 1}. -/
def c4run : Option (BMSSPRes × (Nat → W) × (Nat → Option Nat) × List Nat × List Nat) :=
  baseCase G6 2 100 [0, 1] dInit6 (fun _ => none) 40

/-- Result record of the `c4run` base-case run. -/
def c4res : BMSSPRes :=
  match c4run with | some (r, _, _, _, _) => r | none => ⟨0, []⟩

/-- Final distances of the `c4run` base-case run. -/
def c4dfn : Nat → W :=
  fun v => match c4run with | some (_, dd, _, _, _) => dd v | none => 0

/-- Final predecessors of the `c4run` base-case run. -/
def c4prfn : Nat → Option Nat :=
  fun v => match c4run with | some (_, _, pp, _, _) => pp v | none => none

/-- Vertices actually expanded (settled) during `c4run`. -/
def c4exp : List Nat :=
  match c4run with | some (_, _, _, e, _) => e | none => []

/-- Vertices discovered during `c4run` (`result_vertices` before
filtering). -/
def c4disc : List Nat :=
  match c4run with | some (_, _, _, _, ds) => ds | none => []

/-- Star graph for the second base-case counterexample: 0→1 (1), 0→2 (2),
0→3 (3). -/
def G4s : DG := mkGraph 4 [(0, 1, 1), (0, 2, 2), (0, 3, 3)]

/-- Initial distances for the `G4s` run: 0 at the single source. -/
def dInit4 : Nat → W := Function.update (fun _ => ⊤) 0 0

/-- The level-0 (base case) run on the star `G4s` with k = 2, bound 100 and
single source 0: the source and vertex 1 are settled (vertex 2 is popped
but the `k` cap breaks before its edges are processed), while all four
vertices are discovered. -/
def c4runB : Option (BMSSPRes × (Nat → W) × (Nat → Option Nat) × List Nat × List Nat) :=
  baseCase G4s 2 100 [0] dInit4 (fun _ => none) 40

/-- Result record of the `c4runB` base-case run. -/
def c4resB : BMSSPRes :=
  match c4runB with | some (r, _, _, _, _) => r | none => ⟨0, []⟩

/-- Vertices actually settled (expanded) during `c4runB`. -/
def c4expB : List Nat :=
  match c4runB with | some (_, _, _, e, _) => e | none => []

/-- Vertices discovered during `c4runB`. -/
def c4discB : List Nat :=
  match c4runB with | some (_, _, _, _, ds) => ds | none => []

/-- Claim C4 (counterexample): the claim fails in both directions.  First,
"the bounded Dijkstra settles at most k + 1 distinct vertices" is false:
with k = 2, bound 100 and sources {0, 1} on the chain `G6`, the base case
settles the four vertices 0, 1, 2, 3 (their outgoing edges are processed)
— more than k + 1 = 3, and even five heap entries are counted against the
`k * 2` cap.  Second, the B'/U rule is keyed to the discovered vertices,
not the settled ones: on the star `G4s` (k = 2, bound B = 100, source 0)
only the 2 < k + 1 vertices 0 and 1 are settled, so the claim requires
B' = B = 100, yet the code returns B' = 2, the (k+1)-th smallest distance
among the four *discovered* vertices [0, 1, 2, 3]. -/
theorem c4_base_case_settles_more_than_k_plus_one :
    (c4run.isSome = true ∧ c4exp = [0, 1, 2, 3] ∧ ¬ (c4exp.length ≤ 2 + 1)) ∧
    (c4runB.isSome = true ∧ c4expB = [0, 1] ∧ c4expB.length < 2 + 1 ∧
      c4discB = [0, 1, 2, 3] ∧ c4resB.newBound = 2 ∧ (2 : W) ≠ 100) :=
  ⟨⟨by decide, by decide, by decide⟩,
   by decide, by decide, by decide, by decide, by decide, by decide⟩

/-- Witness for the amended C4 contract at the concrete `G6` run (which
exercises the over-threshold branch: five vertices are discovered). -/
theorem c4_base_case_contract_amended_witness :
    c4exp.length ≤ 2 * 2 ∧
    (([0, 1] : List Nat).length = 1 → c4exp.length ≤ 2) ∧
    (∀ v ∈ c4res.vertices, c4dfn v < c4res.newBound) ∧
    (c4disc.length ≤ 2 → c4res.newBound = 100) ∧
    (2 < c4disc.length → c4res.newBound = (sortW (c4disc.map c4dfn)).getD 2 0) ∧
    c4res.vertices = c4disc.filter (fun v => decide (c4dfn v < c4res.newBound)) :=
  c4_base_case_contract_amended G6 2 100 [0, 1] dInit6 (fun _ => none) 40
    c4res c4dfn c4prfn c4exp c4disc rfl



/-! ### Claim C5 -/

/-- Two-vertex graph with a single edge 0→1 of weight 5, relaxed under
bound exactly 5. -/
def G2 : DG := mkGraph 2 [(0, 1, 5)]

/-- Initial distances: 0 at the source. -/
def dInit2 : Nat → W := Function.update (fun _ => ⊤) 0 0

/-- Level-0 run on `G2` with k = 2 and bound 5. -/
def c5run : Option (BMSSPRes × (Nat → W) × (Nat → Option Nat) × List Nat × List Nat) :=
  baseCase G2 2 5 [0] dInit2 (fun _ => none) 20

/-- Result record of `c5run`. -/
def c5res : BMSSPRes :=
  match c5run with | some (r, _, _, _, _) => r | none => ⟨0, []⟩

/-- Final distances of `c5run`. -/
def c5dfn : Nat → W :=
  fun v => match c5run with | some (_, dd, _, _, _) => dd v | none => 0

/-- Final predecessors of `c5run`. -/
def c5prfn : Nat → Option Nat :=
  fun v => match c5run with | some (_, _, pp, _, _) => pp v | none => none

/-- Expanded vertices of `c5run`. -/
def c5exp : List Nat :=
  match c5run with | some (_, _, _, e, _) => e | none => []

/-- Discovered vertices of `c5run`. -/
def c5disc : List Nat :=
  match c5run with | some (_, _, _, _, ds) => ds | none => []

/-- Claim C5 (counterexample): the claim says d and π are updated only when
the new tentative distance is strictly smaller than d[v] *and strictly less
than B*.  Running the base case on `G2` with bound B = 5: the edge 0→1 of
weight 5 gives the tentative distance 5, which is not < B, yet d[1] is set
to 5 and π[1] to 0 (the source tests `new_dist <= bound`). -/
theorem c5_update_at_exact_bound :
    c5run.isSome = true ∧
    dInit2 1 = ⊤ ∧ c5dfn 1 = 5 ∧ c5prfn 1 = some 0 ∧ ¬ ((5 : W) < 5) :=
  ⟨by decide, by decide, by decide, by decide, by decide⟩

/-- Witness for the amended C5 update discipline: in the `c5run` run the
entry of vertex 1 changed, strictly decreased, and ended ≤ the bound 5. -/
theorem c5_base_case_update_discipline_witness :
    c5dfn 1 < dInit2 1 ∧ c5dfn 1 ≤ 5 :=
  c5_base_case_update_discipline G2 2 5 [0] dInit2 (fun _ => none) 20
    c5res c5dfn c5prfn c5exp c5disc rfl 1 (Or.inl (by decide))

/-! ### Claim C6 -/

/-- The block list {1 ↦ 5, 2 ↦ 1} (block size 3, upper bound 10), built by
two plain inserts; both pairs land in the single D1 block in insertion
order. -/
def c6bl : BlockList :=
  ((((BlockList.new 3 10).insert 1 5).getD (BlockList.new 3 10)).insert 2 1).getD
    (BlockList.new 3 10)

/-- Claim C6: every key returned by `Pull(M)` has value ≤ B', every
remaining key has value ≥ B', and B' = B when the structure is drained.
The second clause fails: on the structure {1 ↦ 5, 2 ↦ 1}, `pull(1)` takes
the *first* element of the unsorted D1 block, returning key 1 (value 5)
with separator B' = 10, while key 2 with value 1 < B' remains stored. -/
theorem c6_pull_leaves_smaller_value_behind :
    aGet c6bl.keyValues 1 = some 5 ∧
    aGet c6bl.keyValues 2 = some 1 ∧
    (c6bl.pull 1).1 = [1] ∧
    (c6bl.pull 1).2.1 = 10 ∧
    aGet ((c6bl.pull 1).2.2).keyValues 2 = some 1 ∧
    ¬ ((10 : W) ≤ 1) :=
  ⟨by decide, by decide, by decide, by decide, by decide, by decide⟩

/-! ### Claim C7 -/

/-- Claim C7 (counterexample): the claim says `Insert(key, value)` with
`value ≥ B` is a no-op.  The source has no such check: inserting value 20
into a fresh structure with upper bound B = 10 stores the binding. -/
theorem c7_insert_above_upper_bound_not_noop :
    (BlockList.new 3 10).upperBound = 10 ∧
    (BlockList.new 3 10).keyValues = [] ∧
    ((BlockList.new 3 10).insert 1 20).map BlockList.keyValues = some [(1, 20)] ∧
    ¬ ((20 : W) < 10) :=
  ⟨by decide, by decide, by decide, by decide⟩

/-- Claim C7 (amended): `Insert(key, value)` is a no-op when `value` is ≥ a
previously inserted value for the same key; there is no check against the
upper bound B (a fresh key with value ≥ B is inserted). -/
theorem c7_insert_ge_existing_is_noop (bl : BlockList) (key : Nat) (value old : W)
    (hget : aGet bl.keyValues key = some old) (hle : old ≤ value) :
    bl.insert key value = some bl := by
  unfold BlockList.insert
  rw [hget]
  simp [hle]

/-- The singleton structure {1 ↦ 5} used as the C7 witness state. -/
def c7bl : BlockList := ((BlockList.new 3 10).insert 1 5).getD (BlockList.new 3 10)

/-- Witness for the amended C7 no-op property: re-inserting key 1 with the
larger value 7 leaves {1 ↦ 5} unchanged. -/
theorem c7_insert_ge_existing_is_noop_witness :
    aGet c7bl.keyValues 1 = some 5 ∧ (5 : W) ≤ 7 ∧ c7bl.insert 1 7 = some c7bl :=
  ⟨by decide, by decide, c7_insert_ge_existing_is_noop c7bl 1 7 5 (by decide) (by decide)⟩

/-! ### Claim C8 -/

/-- Out-degree hub: vertex 0 with three outgoing unit edges. -/
def GHout : DG := mkGraph 4 [(0, 1, 1), (0, 2, 1), (0, 3, 1)]

/-- In-degree hub: vertex 6 with six incoming unit edges. -/
def GHin : DG := mkGraph 7 [(0, 6, 1), (1, 6, 1), (2, 6, 1), (3, 6, 1), (4, 6, 1), (5, 6, 1)]

/-- Claim C8: the hub-split transformation bounds every in- and out-degree
by Δ.  It does not: with Δ = 2, splitting vertex 0 with out-degree 3 leaves
it with out-degree 3 (a chunk of Δ reassigned edges plus the zero-weight
chain edge), and splitting vertex 6 with in-degree 6 leaves it with
in-degree 4 (a chunk of Δ original edges plus one zero-weight edge from
each of the ⌈6/Δ⌉ − 1 = 2 replicas, which form a star rather than a
chain). -/
theorem c8_hub_split_exceeds_degree_bound :
    ((hubSplitTransform (HubSplit.new GHout 2)).graph.out 0).length = 3 ∧
    ((hubSplitTransform (HubSplit.new GHout 2)).graph.out 0) = [(4, 0), (1, 1), (2, 1)] ∧
    ((hubSplitTransform (HubSplit.new GHin 2)).graph.inc 6).length = 4 ∧
    ¬ (3 ≤ 2) ∧ ¬ (4 ≤ 2) :=
  ⟨by decide, by decide, by decide, by decide, by decide⟩

/-! ### Claim C9 -/

/-- Claim C9: calling the recursive BMSSP engine with an empty source set
returns an error (`AlgorithmError "Empty sources set"`), not a result, for
every graph, level, bound, fuel and state; the guard runs before anything
else, so no state is produced or modified. -/
theorem c9_execute_empty_sources_returns_error (g : DG) (k t level fuel : Nat)
    (bound : W) (d : Nat → W) (pr : Nat → Option Nat) :
    execute g k t level fuel bound [] d pr =
      some (.error (.algorithmError "Empty sources set")) := by
  cases level <;> rfl

/-! ### Claim C10 -/

/-- The structure {1 ↦ 5} whose single D1 block is removed by a draining
`pull`. -/
def c10bl : BlockList := ((BlockList.new 3 10).insert 1 5).getD (BlockList.new 3 10)

/-- Claim C10: the claim says D1 is non-empty at the start of every insert,
so `insert` never panics — in particular after a draining pull.  In fact
`pull` removes exhausted D1 blocks without restoring the sentinel empty
block, so after pulling the only key the structure has `d1_blocks = []`,
and the next `insert` reaches the fallback `d1_blocks.len() - 1`, which
panics (modelled as `none`). -/
theorem c10_insert_after_draining_pull_panics :
    aGet c10bl.keyValues 1 = some 5 ∧
    (c10bl.pull 1).1 = [1] ∧
    ((c10bl.pull 1).2.2).d1Blocks = [] ∧
    ((c10bl.pull 1).2.2).insert 2 3 = none :=
  ⟨by decide, by decide, by decide, by decide⟩

end FastSSSP
